import Mathlib

/-!
Verification development for the PSYC 917 course-notebook repository.

The repository is a collection of Jupyter notebooks for an fMRI-analysis
course.  The code it defines consists of four short helper functions
(`set_color`, `set_network`, `stat_map`, `test_model`), a handful of small
matrix constructions (the model RDMs of the RSA notebook), and a few
file-level hand-offs between notebooks (a pickled collection of first-level
models, a CSV connectivity matrix).  This file gives a shallow embedding of
those pieces and proves the specification's statements about them.

Modelling conventions:
* numpy arrays of voxel data are flattened `List ℚ` (np.where and the other
  operations used here act elementwise, so the multi-dimensional shape is
  carried by the length of the flattened data);
* Python errors (IndexError from over-indexing a split, KeyError from a dict
  lookup) become an `Except PyError` result;
* `stats.pearsonr` belongs to scipy, not to the repository, so `test_model`
  is parametrised by an arbitrary correlation function;
* the notebooks' file operations are transcribed into an explicit inventory
  `fileOps`, and the pickle hand-off is modelled by a `Disk` store.
-/

namespace Psyc917

/-- Python runtime errors that the repository helpers can raise:
`IndexError` from indexing past the end of `x.split('_')`, and
`KeyError` from a failed dictionary lookup. -/
inductive PyError where
  | indexError : PyError
  | keyError : String → PyError
deriving DecidableEq, Repr

/-- The seven Yeo network names, as listed in both `set_color` and
`set_network` in the network-analysis notebooks. -/
def networks : List String :=
  ["Vis", "SomMot", "DorsAttn", "SalVentAttn", "Limbic", "Cont", "Default"]

/-- The colour palette zipped against `networks` in `set_color`. -/
def cmap : List String :=
  ["purple", "steelblue", "green", "violet",
   "lightgoldenrodyellow", "orange", "indianred"]

/-- The numeric indices zipped against `networks` in `set_network`. -/
def networkIndex : List Nat := [1, 2, 3, 4, 5, 6, 7]

/-- Split a character list at every occurrence of `sep`; the semantics of
Python's `str.split` with an explicit one-character separator (so
`"".split('_') = ['']` and separators at the ends yield empty fields). -/
def splitOnChar (sep : Char) : List Char → List (List Char)
  | [] => [[]]
  | c :: rest =>
    match splitOnChar sep rest with
    | [] => if c = sep then [[], [c]] else [[c]]
    | h :: t => if c = sep then [] :: h :: t else (c :: h) :: t

/-- Python's `x.split(sep)` for a one-character separator, on `String`. -/
def pySplit (x : String) (sep : Char) : List String :=
  (splitOnChar sep x.toList).map (fun cs => String.mk cs)

example : pySplit "7Networks_LH_Vis_1" '_' = ["7Networks", "LH", "Vis", "1"] := rfl
example : pySplit "" '_' = [""] := rfl
example : pySplit "a__b" '_' = ["a", "", "b"] := rfl

/-- `set_color(x)`: split the region label on underscores, take the third
field, and look it up in `dict(zip(networks, cmap))`.  A label with fewer
than three fields raises IndexError; a third field that is not a network
name raises KeyError. -/
def set_color (x : String) : Except PyError String :=
  let pairings := networks.zip cmap
  match (pySplit x '_')[2]? with
  | none => .error .indexError
  | some network_label =>
    match pairings.lookup network_label with
    | none => .error (.keyError network_label)
    | some c => .ok c

/-- `set_network(x)`: identical to `set_color` except that the lookup table
is `dict(zip(networks, [1..7]))`. -/
def set_network (x : String) : Except PyError Nat :=
  let pairings := networks.zip networkIndex
  match (pySplit x '_')[2]? with
  | none => .error .indexError
  | some network_label =>
    match pairings.lookup network_label with
    | none => .error (.keyError network_label)
    | some n => .ok n

example : set_color "7Networks_LH_Vis_1" = .ok "purple" := by rfl
example : set_network "7Networks_LH_Default_PFC_3" = .ok 7 := by rfl
example : set_color "7Networks_LH_Foo_1" = .error (.keyError "Foo") := by rfl
example : set_color "ab" = .error .indexError := by rfl

/-! ### The `stat_map` helper

Voxel data (`img.get_fdata()`) is modelled as a flattened `List ℚ`; every
numpy operation used by `stat_map` (`np.where(arr == i, val, arr)`, `copy`)
acts elementwise, so the multi-dimensional shape of the array is exactly the
length of the flattened data. -/

/-- A NIfTI image as `stat_map` consumes and produces it: a (flattened)
voxel-data array plus an affine. -/
structure Nifti1Image where
  data : List ℚ
  affine : List (List ℚ)
deriving DecidableEq

/-- `img.get_fdata()`: the voxel data of an image. -/
def get_fdata (img : Nifti1Image) : List ℚ := img.data

/-- Insert a value into a sorted list, keeping it sorted. -/
def insertSorted (a : ℚ) : List ℚ → List ℚ
  | [] => [a]
  | b :: l => if a ≤ b then a :: b :: l else b :: insertSorted a l

/-- `np.unique(arr)`: the distinct values of the array in ascending order
(modelled as an insertion sort of the deduplicated value list). -/
def npUnique (l : List ℚ) : List ℚ := l.dedup.foldr insertSorted []

example : npUnique [0, 1, 1, 2, 0, 3] = [0, 1, 2, 3] := by decide

/-- `np.where(arr == i, val, arr)`: replace every occurrence of `i` in the
array by `val`, elementwise, producing a fresh array. -/
def np_where_eq (arr : List ℚ) (i val : ℚ) : List ℚ :=
  arr.map (fun v => if v = i then val else v)

/-- `stat_map(x, atlas)`: read the atlas data, list its distinct values in
ascending order and drop the first (the background code), then repeatedly
rewrite the whole array, replacing the k-th remaining code by the k-th
entry of `x`; finally wrap the result with the atlas affine. -/
def stat_map (x : List ℚ) (atlas : Nifti1Image) : Nifti1Image :=
  let img_data := get_fdata atlas
  let indices := (npUnique img_data).drop 1
  let arr := (x.zip indices).foldl (fun arr vi => np_where_eq arr vi.2 vi.1) img_data
  Nifti1Image.mk arr atlas.affine

example :
    stat_map [10, 20, 30] (Nifti1Image.mk [0, 1, 1, 2, 0, 3] []) =
      Nifti1Image.mk [0, 10, 10, 20, 0, 30] [] := by decide

/-- The scalar residue of the `stat_map` loop: the value a single cell takes
after the sequence of `np.where` rewrites given by `pairs`. -/
def remap_steps (pairs : List (ℚ × ℚ)) (v : ℚ) : ℚ :=
  pairs.foldl (fun v vi => if v = vi.2 then vi.1 else v) v

/-- The `stat_map` loop acts elementwise: folding whole-array rewrites over
the data equals mapping the scalar fold over each cell. -/
theorem stat_map_foldl_eq_map (pairs : List (ℚ × ℚ)) :
    ∀ data : List ℚ,
      pairs.foldl (fun arr vi => np_where_eq arr vi.2 vi.1) data =
        data.map (remap_steps pairs) := by
  induction pairs with
  | nil =>
    intro data
    have : remap_steps [] = fun v => v := by funext v; simp [remap_steps]
    simp [this]
  | cons p ps ih =>
    intro data
    have h1 : remap_steps (p :: ps) = fun v => remap_steps ps (if v = p.2 then p.1 else v) := by
      funext v; simp [remap_steps]
    rw [List.foldl_cons, ih, np_where_eq, List.map_map, h1]
    rfl

/-- The data of `stat_map x atlas` is the atlas data mapped cellwise through
the rewrite fold. -/
theorem stat_map_data (x : List ℚ) (atlas : Nifti1Image) :
    (stat_map x atlas).data =
      atlas.data.map (remap_steps (x.zip ((npUnique atlas.data).drop 1))) := by
  simp [stat_map, get_fdata, stat_map_foldl_eq_map]

/-- If a cell's value never matches a rewritten code, the rewrite fold
leaves it unchanged. -/
theorem remap_steps_not_mem :
    ∀ (pairs : List (ℚ × ℚ)) (v : ℚ), (∀ p ∈ pairs, v ≠ p.2) →
      remap_steps pairs v = v := by
  intro pairs
  induction pairs with
  | nil => intro v _; rfl
  | cons p ps ih =>
    intro v h
    have hv : v ≠ p.2 := h p (List.mem_cons_self p ps)
    have : remap_steps (p :: ps) v = remap_steps ps v := by
      simp [remap_steps, hv]
    rw [this]
    exact ih v (fun q hq => h q (List.mem_cons_of_mem p hq))

/-- A cell holding the code of the k-th rewrite ends up holding the k-th
value, provided earlier rewrites do not touch the code and later rewrites do
not touch the written value. -/
theorem remap_steps_hit :
    ∀ (pairs : List (ℚ × ℚ)) (k : Nat) (hk : k < pairs.length),
      (∀ j (hj : j < pairs.length), j < k → pairs[k].2 ≠ pairs[j].2) →
      (∀ j (hj : j < pairs.length), k < j → pairs[k].1 ≠ pairs[j].2) →
      remap_steps pairs pairs[k].2 = pairs[k].1 := by
  intro pairs
  induction pairs with
  | nil => intro k hk; exact absurd hk (by simp)
  | cons p ps ih =>
    intro k hk hbefore hafter
    match k with
    | 0 =>
      have hstep : remap_steps (p :: ps) p.2 = remap_steps ps p.1 := by
        simp [remap_steps]
      simp only [List.getElem_cons_zero] at *
      rw [hstep]
      refine remap_steps_not_mem ps p.1 ?_
      intro q hq
      obtain ⟨j, hj, rfl⟩ := List.mem_iff_getElem.mp hq
      have := hafter (j + 1) (by simpa using Nat.succ_lt_succ hj) (Nat.succ_pos j)
      simpa using this
    | k' + 1 =>
      have hk' : k' < ps.length := by simpa using Nat.lt_of_succ_lt_succ hk
      have hne : (p :: ps)[k' + 1].2 ≠ p.2 := by
        have := hbefore 0 (by simp) (Nat.succ_pos k')
        simpa using this
      have hstep : remap_steps (p :: ps) ((p :: ps)[k' + 1]).2 =
          remap_steps ps (ps[k']).2 := by
        simp only [List.getElem_cons_succ] at hne ⊢
        simp [remap_steps, hne]
      rw [hstep]
      have hres := ih k' hk'
        (fun j hj hjk => by
          have := hbefore (j + 1) (by simpa using Nat.succ_lt_succ hj)
            (Nat.succ_lt_succ hjk)
          simpa using this)
        (fun j hj hkj => by
          have := hafter (j + 1) (by simpa using Nat.succ_lt_succ hj)
            (Nat.succ_lt_succ hkj)
          simpa using this)
      simpa using hres

/-- Inserting into a list permutes consing onto it. -/
theorem insertSorted_perm (a : ℚ) :
    ∀ l : List ℚ, (insertSorted a l).Perm (a :: l) := by
  intro l
  induction l with
  | nil => simp [insertSorted]
  | cons b l ih =>
    by_cases h : a ≤ b
    · simp [insertSorted, h]
    · have : insertSorted a (b :: l) = b :: insertSorted a l := by
        simp [insertSorted, h]
      rw [this]
      exact ((ih.cons b).trans (List.Perm.swap a b l))

/-- The insertion-sort fold permutes its input. -/
theorem foldr_insertSorted_perm :
    ∀ l : List ℚ, (l.foldr insertSorted []).Perm l := by
  intro l
  induction l with
  | nil => simp
  | cons b l ih =>
    simpa using (insertSorted_perm b (l.foldr insertSorted [])).trans (ih.cons b)

/-- `np.unique` returns a duplicate-free list. -/
theorem npUnique_nodup (l : List ℚ) : (npUnique l).Nodup :=
  (foldr_insertSorted_perm l.dedup).nodup_iff.mpr (List.nodup_dedup l)

end Psyc917

namespace Psyc917

/-- C2: for every stat vector and every atlas image, the data array of the
image returned by `stat_map x atlas` has exactly the same shape as the data
array of the input atlas (the elementwise rewrites preserve the flattened
length, which carries the array shape). -/
theorem claim_C2_stat_map_same_shape (x : List ℚ) (atlas : Nifti1Image) :
    (stat_map x atlas).data.length = atlas.data.length := by
  rw [stat_map_data]
  exact List.length_map ..

/-- C9: if the atlas data consists of a background value `bg` plus distinct
region codes `codes` in ascending order (`np.unique` order), `x` supplies at
least one value per code, and no `x[k]` collides with a region code rewritten
after step `k`, then in the output every voxel bearing the k-th code holds
`x[k]` and every background voxel keeps its value. -/
theorem claim_C9_stat_map_noncollision (x : List ℚ) (atlas : Nifti1Image)
    (bg : ℚ) (codes : List ℚ)
    (hu : npUnique atlas.data = bg :: codes)
    (hlen : codes.length ≤ x.length)
    (hnc : ∀ k, (hk : k < x.length) → ∀ j, (hj : j < codes.length) →
      k < j → x[k] ≠ codes[j]) :
    ∀ pos, (hpos : pos < atlas.data.length) →
      (atlas.data[pos] = bg → (stat_map x atlas).data[pos]? = some bg) ∧
      (∀ k, (hk : k < codes.length) → (hkx : k < x.length) →
        atlas.data[pos] = codes[k] → (stat_map x atlas).data[pos]? = some x[k]) := by
  have hnodup : (bg :: codes).Nodup := by
    rw [← hu]; exact npUnique_nodup atlas.data
  have hbg : bg ∉ codes := (List.nodup_cons.mp hnodup).1
  have hcodes : codes.Nodup := (List.nodup_cons.mp hnodup).2
  have hdrop : (npUnique atlas.data).drop 1 = codes := by rw [hu]; rfl
  have hdata : (stat_map x atlas).data =
      atlas.data.map (remap_steps (x.zip codes)) := by
    rw [stat_map_data, hdrop]
  intro pos hpos
  have hres : (stat_map x atlas).data[pos]? =
      some (remap_steps (x.zip codes) atlas.data[pos]) := by
    rw [hdata, List.getElem?_map, List.getElem?_eq_getElem hpos]
    rfl
  constructor
  · intro hbgv
    rw [hres, hbgv]
    refine congrArg some (remap_steps_not_mem _ bg ?_)
    intro p hp he
    exact hbg (he ▸ (List.of_mem_zip hp).2)
  · intro k hk hkx hcv
    have hzlen : k < (x.zip codes).length := by
      simp only [List.length_zip]
      omega
    have hpair : (x.zip codes)[k] = (x[k], codes[k]) := List.getElem_zip
    have hhit := remap_steps_hit (x.zip codes) k hzlen
      (fun j hj hjk => by
        have hjc : j < codes.length := by
          simp only [List.length_zip] at hj; omega
        have hjx : j < x.length := by
          simp only [List.length_zip] at hj; omega
        have hjp : (x.zip codes)[j] = (x[j], codes[j]) := List.getElem_zip
        rw [hpair, hjp]
        simp only [ne_eq]
        intro he
        have := hcodes.getElem_inj_iff.mp he
        omega)
      (fun j hj hkj => by
        have hjc : j < codes.length := by
          simp only [List.length_zip] at hj; omega
        have hjx : j < x.length := by
          simp only [List.length_zip] at hj; omega
        have hjp : (x.zip codes)[j] = (x[j], codes[j]) := List.getElem_zip
        rw [hpair, hjp]
        exact hnc k hkx j hjc hkj)
    rw [hpair] at hhit
    rw [hres, hcv]
    exact congrArg some hhit

/-- Concrete run of C9: atlas data `[0,1,1,2,0,3]` (background 0, codes
1,2,3) with stats `[10,20,30]`; the voxel holding code 2 ends as 20. -/
theorem claim_C9_witness :
    (stat_map [10, 20, 30] (Nifti1Image.mk [0, 1, 1, 2, 0, 3] [])).data[3]? =
      some 20 :=
  (claim_C9_stat_map_noncollision [10, 20, 30]
      (Nifti1Image.mk [0, 1, 1, 2, 0, 3] []) 0 [1, 2, 3]
      (by decide) (by decide) (by decide) 3 (by decide)).2
    1 (by decide) (by decide) (by decide)

end Psyc917

namespace Psyc917

/-! ### A heap model for `stat_map`

To state that `stat_map` mutates nothing, the numpy arrays are placed in an
explicit heap: `atlas.get_fdata()` reads an array at an address, `.copy()`
and each `np.where` allocate fresh arrays.  Nothing in the loop writes to an
existing address, which the frame theorem below makes precise. -/

/-- A heap of numpy arrays; an address is an index into the list. -/
abbrev Heap : Type := List (List ℚ)

/-- Read the array stored at `addr` (the empty array off the heap). -/
def hget (h : Heap) (addr : Nat) : List ℚ := h.getD addr []

/-- Allocate a fresh array, returning the new heap and its address. -/
def halloc (h : Heap) (arr : List ℚ) : Heap × Nat := (h ++ [arr], h.length)

/-- `stat_map` with the heap made explicit: read the atlas data at
`atlasAddr`, allocate the `.copy()`, then each `np.where` step reads the
current array and allocates the rewritten one. -/
def stat_map_st (x : List ℚ) (h : Heap) (atlasAddr : Nat) : Heap × Nat :=
  let img_data := hget h atlasAddr
  let indices := (npUnique img_data).drop 1
  (x.zip indices).foldl
    (fun st vi => halloc st.1 (np_where_eq (hget st.1 st.2) vi.2 vi.1))
    (halloc h img_data)

/-- Reading below a freshly allocated cell sees the old heap. -/
theorem hget_halloc_old (h : Heap) (arr : List ℚ) (j : Nat)
    (hj : j < h.length) : hget (h ++ [arr]) j = hget h j := by
  simp [hget, List.getD_eq_getElem?_getD, List.getElem?_append_left hj]

/-- Reading a freshly allocated cell sees the new array. -/
theorem hget_halloc_new (h : Heap) (arr : List ℚ) :
    hget (h ++ [arr]) h.length = arr := by
  simp [hget, List.getD_eq_getElem?_getD, List.getElem?_concat_length]

/-- The `stat_map` allocation fold leaves every pre-existing heap cell
untouched (the heap only grows). -/
theorem foldl_halloc_frame :
    ∀ (pairs : List (ℚ × ℚ)) (h0 : Heap) (a0 : Nat),
      h0.length ≤ (pairs.foldl (fun st vi => halloc st.1 (np_where_eq (hget st.1 st.2) vi.2 vi.1)) (h0, a0)).1.length ∧
      ∀ j, j < h0.length →
        hget (pairs.foldl (fun st vi => halloc st.1 (np_where_eq (hget st.1 st.2) vi.2 vi.1)) (h0, a0)).1 j = hget h0 j := by
  intro pairs
  induction pairs with
  | nil => intro h0 a0; exact ⟨le_refl _, fun _ _ => rfl⟩
  | cons vi ps ih =>
    intro h0 a0
    simp only [List.foldl_cons]
    have hstep : halloc (h0, a0).1 (np_where_eq (hget (h0, a0).1 (h0, a0).2) vi.2 vi.1) =
        (h0 ++ [np_where_eq (hget h0 a0) vi.2 vi.1], h0.length) := rfl
    rw [hstep]
    obtain ⟨hlen, hold⟩ := ih (h0 ++ [np_where_eq (hget h0 a0) vi.2 vi.1]) h0.length
    constructor
    · calc h0.length ≤ (h0 ++ [np_where_eq (hget h0 a0) vi.2 vi.1]).length := by simp
        _ ≤ _ := hlen
    · intro j hj
      rw [hold j (by simp; omega), hget_halloc_old _ _ _ hj]

/-- The allocating fold computes exactly the pure `stat_map` fold: the final
address is valid and holds the pure result. -/
theorem foldl_halloc_agree :
    ∀ (pairs : List (ℚ × ℚ)) (h0 : Heap) (a0 : Nat), a0 < h0.length →
      (pairs.foldl (fun st vi => halloc st.1 (np_where_eq (hget st.1 st.2) vi.2 vi.1)) (h0, a0)).2 <
        (pairs.foldl (fun st vi => halloc st.1 (np_where_eq (hget st.1 st.2) vi.2 vi.1)) (h0, a0)).1.length ∧
      hget (pairs.foldl (fun st vi => halloc st.1 (np_where_eq (hget st.1 st.2) vi.2 vi.1)) (h0, a0)).1
          (pairs.foldl (fun st vi => halloc st.1 (np_where_eq (hget st.1 st.2) vi.2 vi.1)) (h0, a0)).2 =
        pairs.foldl (fun arr vi => np_where_eq arr vi.2 vi.1) (hget h0 a0) := by
  intro pairs
  induction pairs with
  | nil => intro h0 a0 ha; exact ⟨ha, rfl⟩
  | cons vi ps ih =>
    intro h0 a0 ha
    simp only [List.foldl_cons]
    have hstep : halloc (h0, a0).1 (np_where_eq (hget (h0, a0).1 (h0, a0).2) vi.2 vi.1) =
        (h0 ++ [np_where_eq (hget h0 a0) vi.2 vi.1], h0.length) := rfl
    rw [hstep]
    obtain ⟨h1, h2⟩ := ih (h0 ++ [np_where_eq (hget h0 a0) vi.2 vi.1]) h0.length (by simp)
    refine ⟨h1, ?_⟩
    rw [h2, hget_halloc_new]

/-- C5: the helpers are pure and stateless.  In the explicit-heap model of
`stat_map`, (i) no array existing before the call — in particular the atlas
data array — is changed by the call (`get_fdata`, `.copy()` and `np.where`
only read or allocate), and (ii) the call returns the address of a fresh
array holding exactly the pure `stat_map` result, so equal inputs give equal
results and nothing outside the arguments is read or written. -/
theorem claim_C5_helpers_stateless (x : List ℚ) (h : Heap) (atlasAddr : Nat) :
    (∀ j, j < h.length → hget (stat_map_st x h atlasAddr).1 j = hget h j) ∧
    hget (stat_map_st x h atlasAddr).1 (stat_map_st x h atlasAddr).2 =
      (stat_map x (Nifti1Image.mk (hget h atlasAddr) [])).data := by
  have hst : stat_map_st x h atlasAddr =
      (x.zip ((npUnique (hget h atlasAddr)).drop 1)).foldl
        (fun st vi => halloc st.1 (np_where_eq (hget st.1 st.2) vi.2 vi.1))
        (h ++ [hget h atlasAddr], h.length) := rfl
  constructor
  · intro j hj
    rw [hst]
    rw [(foldl_halloc_frame (x.zip ((npUnique (hget h atlasAddr)).drop 1))
          (h ++ [hget h atlasAddr]) h.length).2 j (by simp; omega)]
    exact hget_halloc_old _ _ _ hj
  · rw [hst]
    rw [(foldl_halloc_agree (x.zip ((npUnique (hget h atlasAddr)).drop 1))
          (h ++ [hget h atlasAddr]) h.length (by simp)).2]
    rw [hget_halloc_new]
    rfl

/-- Concrete run of C5: with the atlas data `[0,1,1,2,0,3]` stored at heap
address 0, `stat_map` leaves that array untouched and returns a fresh array
holding the remapped data. -/
theorem claim_C5_witness :
    hget (stat_map_st [10, 20, 30] [[0, 1, 1, 2, 0, 3]] 0).1 0 = [0, 1, 1, 2, 0, 3] ∧
    hget (stat_map_st [10, 20, 30] [[0, 1, 1, 2, 0, 3]] 0).1
        (stat_map_st [10, 20, 30] [[0, 1, 1, 2, 0, 3]] 0).2 =
      [0, 10, 10, 20, 0, 30] := by
  have hh := claim_C5_helpers_stateless [10, 20, 30] [[0, 1, 1, 2, 0, 3]] 0
  refine ⟨?_, ?_⟩
  · rw [hh.1 0 (by decide)]; decide
  · rw [hh.2]; decide

/-- Unfolding `set_network` once the third field of the split is known. -/
theorem set_network_eq (x lbl : String)
    (hsplit : (pySplit x '_')[2]? = some lbl) :
    set_network x =
      match (networks.zip networkIndex).lookup lbl with
      | none => .error (.keyError lbl)
      | some n => .ok n := by
  unfold set_network
  rw [hsplit]

/-- Unfolding `set_color` once the third field of the split is known. -/
theorem set_color_eq (x lbl : String)
    (hsplit : (pySplit x '_')[2]? = some lbl) :
    set_color x =
      match (networks.zip cmap).lookup lbl with
      | none => .error (.keyError lbl)
      | some c => .ok c := by
  unfold set_color
  rw [hsplit]

/-- Looking a key up in a zipped association list fails when the key is not
among the zipped keys. -/
theorem lookup_zip_not_mem {β : Type} (lbl : String) :
    ∀ (keys : List String) (vals : List β), lbl ∉ keys →
      (keys.zip vals).lookup lbl = none := by
  intro keys
  induction keys with
  | nil => intro vals _; rfl
  | cons k ks ih =>
    intro vals h
    cases vals with
    | nil => rfl
    | cons v vs =>
      have hk : (lbl == k) = false := by
        simp only [beq_eq_false_iff_ne, ne_eq]
        exact fun he => h (he ▸ List.mem_cons_self k ks)
      rw [List.zip_cons_cons]
      have hstep : ((k, v) :: ks.zip vs).lookup lbl = (ks.zip vs).lookup lbl := by
        simp [List.lookup, hk]
      rw [hstep]
      exact ih vs (fun hm => h (List.mem_cons_of_mem k hm))

/-- C8: `set_color` and `set_network` agree on the network assignment.  For
a label whose third underscore-separated field is one of the seven network
names, `set_network` returns an integer between 1 and 7 and `set_color`
returns the entry of the fixed palette at that integer minus one; for a
third field outside the seven names, both fail (with the same KeyError). -/
theorem claim_C8_color_network_agree (x lbl : String)
    (hsplit : (pySplit x '_')[2]? = some lbl) :
    (lbl ∈ networks →
      set_network x = .ok ((set_network x).toOption.getD 0) ∧
      1 ≤ (set_network x).toOption.getD 0 ∧
      (set_network x).toOption.getD 0 ≤ 7 ∧
      set_color x = .ok (cmap.getD ((set_network x).toOption.getD 0 - 1) "")) ∧
    (lbl ∉ networks →
      set_network x = .error (.keyError lbl) ∧
      set_color x = .error (.keyError lbl)) := by
  constructor
  · intro hin
    rw [set_network_eq x lbl hsplit, set_color_eq x lbl hsplit]
    have hcases : lbl = "Vis" ∨ lbl = "SomMot" ∨ lbl = "DorsAttn" ∨
        lbl = "SalVentAttn" ∨ lbl = "Limbic" ∨ lbl = "Cont" ∨
        lbl = "Default" := by
      simpa [networks] using hin
    rcases hcases with rfl | rfl | rfl | rfl | rfl | rfl | rfl <;>
      exact ⟨rfl, by decide, by decide, rfl⟩
  · intro hout
    rw [set_network_eq x lbl hsplit, set_color_eq x lbl hsplit,
      lookup_zip_not_mem lbl networks networkIndex hout,
      lookup_zip_not_mem lbl networks cmap hout]
    exact ⟨rfl, rfl⟩

/-- Concrete runs of C8: a Vis-network label gets network 1 and the first
palette colour; a label with an unknown network name makes both helpers fail
with the same KeyError. -/
theorem claim_C8_witness :
    (set_network "7Networks_LH_Vis_1" =
        .ok ((set_network "7Networks_LH_Vis_1").toOption.getD 0) ∧
      1 ≤ (set_network "7Networks_LH_Vis_1").toOption.getD 0 ∧
      (set_network "7Networks_LH_Vis_1").toOption.getD 0 ≤ 7 ∧
      set_color "7Networks_LH_Vis_1" =
        .ok (cmap.getD ((set_network "7Networks_LH_Vis_1").toOption.getD 0 - 1) "")) ∧
    (set_network "A_B_Foo_1" = .error (.keyError "Foo") ∧
      set_color "A_B_Foo_1" = .error (.keyError "Foo")) :=
  ⟨(claim_C8_color_network_agree "7Networks_LH_Vis_1" "Vis" (by rfl)).1 (by decide),
   (claim_C8_color_network_agree "A_B_Foo_1" "Foo" (by rfl)).2 (by decide)⟩

/-- Exception-handling constructs (try/except blocks, retries, fallback
branches) occurring anywhere in repository code: there are none. -/
def exceptionHandlers : List String := []

/-- C6: no failure is caught by repository code.  The repository contains no
exception handler, and the concrete exemplar holds: `set_color` applied to a
label whose third underscore-separated field is not one of the seven network
names returns the underlying KeyError itself — no fallback value, no
substitute error. -/
theorem claim_C6_errors_propagate (x lbl : String)
    (hsplit : (pySplit x '_')[2]? = some lbl) (hout : lbl ∉ networks) :
    exceptionHandlers = [] ∧
    set_color x = .error (.keyError lbl) := by
  refine ⟨rfl, ?_⟩
  rw [set_color_eq x lbl hsplit, lookup_zip_not_mem lbl networks cmap hout]

/-- Concrete run of C6: the label `"A_B_Camel_1"` has third field
`"Camel"`, which is not a network name, and `set_color` surfaces the
KeyError for it. -/
theorem claim_C6_witness :
    exceptionHandlers = [] ∧
    set_color "A_B_Camel_1" = .error (.keyError "Camel") :=
  claim_C6_errors_propagate "A_B_Camel_1" "Camel" (by rfl) (by decide)

/-! ### The RSA notebook: model RDMs and `test_model`

The eight conditions index the rows and columns of every matrix.  The numpy
constructions (`np.zeros((8,8)) + 1`, `np.fill_diagonal`, fancy indexing,
slice assignment) are transcribed operation by operation. -/

/-- The condition list of the RSA notebook. -/
def conditions : List String :=
  ["Arm", "Eye", "Finger", "Grasp", "Mouth", "Speech", "Toes", "Touch"]

/-- An 8-by-8 numpy matrix of rationals. -/
abbrev Mat8 : Type := Fin 8 → Fin 8 → ℚ

/-- `np.zeros(shape=(8, 8)) + 1`. -/
def np_zeros_plus_one : Mat8 := fun _ _ => 1

/-- `np.fill_diagonal(m, v)`. -/
def fill_diagonal (m : Mat8) (v : ℚ) : Mat8 :=
  fun i j => if i = j then v else m i j

/-- Fancy-index assignment `m[(r...), (c...)] = v` at the listed positions. -/
def set_at (m : Mat8) (ps : List (Fin 8 × Fin 8)) (v : ℚ) : Mat8 :=
  fun i j => if (i, j) ∈ ps then v else m i j

/-- Slice assignment `m[r1:r2, c1:c2] = v`. -/
def set_block (m : Mat8) (r1 r2 c1 c2 : Nat) (v : ℚ) : Mat8 :=
  fun i j =>
    if r1 ≤ i.val ∧ i.val < r2 ∧ c1 ≤ j.val ∧ j.val < c2 then v else m i j

/-- `rdm_1`: all conditions distinct — ones off the diagonal, zeros on it. -/
def rdm_1 : Mat8 := fill_diagonal np_zeros_plus_one 0

/-- `rdm_2`: Arm/Grasp correlated, Finger/Toes-group and the rest grouped as
in the notebook's second model (`rdm_2[(3,0,1,2),(0,3,2,1)] = 0`, then the
three slice assignments). -/
def rdm_2 : Mat8 :=
  let m0 := fill_diagonal np_zeros_plus_one 0
  let m1 := set_at m0 [(3, 0), (0, 3), (1, 2), (2, 1)] 0
  let m2 := set_block m1 4 8 4 8 0
  let m3 := set_block m2 4 8 1 3 0
  set_block m3 1 3 4 8 0

/-- `rdm_3`: the three-cluster model (`rdm_3[(3,0),(0,3)] = 0` and the six
slice assignments of the notebook). -/
def rdm_3 : Mat8 :=
  let m0 := fill_diagonal np_zeros_plus_one 0
  let m1 := set_at m0 [(3, 0), (0, 3)] 0
  let m2 := set_block m1 6 8 6 8 0
  let m3 := set_block m2 6 8 2 3 0
  let m4 := set_block m3 2 3 6 8 0
  let m5 := set_block m4 1 2 4 6 0
  let m6 := set_block m5 4 6 1 2 0
  set_block m6 4 6 4 6 0

/-- `model.values.ravel()`: row-major flattening of an 8-by-8 matrix. -/
def ravel (m : Mat8) : List ℚ :=
  ((List.finRange 8).map (fun i => (List.finRange 8).map (fun j => m i j))).flatten

/-- `rdm = 1 - mat`: convert a correlation matrix to an RDM, elementwise. -/
def one_minus (mat : Mat8) : Mat8 := fun i j => 1 - mat i j

/-- `test_model(model, subject_matrices)`: for each subject correlation
matrix, convert it to an RDM and correlate its flattening with the model's
flattening, appending the r value to the result list.  `stats.pearsonr`
belongs to scipy, so the correlation is an arbitrary parameter `pearsonr`
(the repository only routes data through it). -/
def test_model (pearsonr : List ℚ → List ℚ → ℚ) (model : Mat8)
    (subject_matrices : List Mat8) : List ℚ :=
  subject_matrices.foldl
    (fun r_values mat => r_values ++ [pearsonr (ravel model) (ravel (one_minus mat))])
    []

/-- Appending one output per element in a fold is a map. -/
theorem foldl_append_eq_map {α β : Type} (f : α → β) :
    ∀ (l : List α) (acc : List β),
      l.foldl (fun acc a => acc ++ [f a]) acc = acc ++ l.map f := by
  intro l
  induction l with
  | nil => intro acc; simp
  | cons a l ih =>
    intro acc
    rw [List.foldl_cons, ih, List.map_cons]
    simp

/-- `test_model` is the map of the per-subject correlation. -/
theorem test_model_eq_map (pearsonr : List ℚ → List ℚ → ℚ) (model : Mat8)
    (mats : List Mat8) :
    test_model pearsonr model mats =
      mats.map (fun mat => pearsonr (ravel model) (ravel (one_minus mat))) := by
  rw [test_model, foldl_append_eq_map]
  rfl

/-- C10: each model RDM of the RSA notebook is symmetric, has zero diagonal
and 0/1 entries; and `test_model` returns exactly one correlation per
subject matrix, in input order (the k-th output is the correlation of the
model with the k-th subject matrix's RDM). -/
theorem claim_C10_rdm_and_test_model (pearsonr : List ℚ → List ℚ → ℚ)
    (model : Mat8) (mats : List Mat8) :
    (∀ rdm ∈ [rdm_1, rdm_2, rdm_3], (∀ i j, rdm i j = rdm j i) ∧
      (∀ i, rdm i i = 0) ∧ (∀ i j, rdm i j = 0 ∨ rdm i j = 1)) ∧
    (test_model pearsonr model mats).length = mats.length ∧
    (∀ k, (hk : k < mats.length) →
      (test_model pearsonr model mats)[k]? =
        some (pearsonr (ravel model) (ravel (one_minus mats[k])))) := by
  refine ⟨?_, ?_, ?_⟩
  · intro rdm hrdm
    simp only [List.mem_cons, List.not_mem_nil, or_false] at hrdm
    rcases hrdm with rfl | rfl | rfl <;> exact ⟨by decide, by decide, by decide⟩
  · rw [test_model_eq_map]
    exact List.length_map ..
  · intro k hk
    rw [test_model_eq_map, List.getElem?_map, List.getElem?_eq_getElem hk]
    rfl

/-- Concrete run of C10: with a one-subject list and the trivial correlation
function, `test_model` returns one value, and `rdm_2` is symmetric at the
Arm/Grasp pair. -/
theorem claim_C10_witness :
    (test_model (fun _ _ => 0) rdm_1 [fun _ _ => 0]).length = 1 ∧
    rdm_2 0 3 = rdm_2 3 0 := by
  have h := claim_C10_rdm_and_test_model (fun _ _ => 0) rdm_1 [fun _ _ => 0]
  exact ⟨h.2.1, (h.1 rdm_2 (by simp)).1 0 3⟩

/-! ### Repository inventories

The function definitions and the file operations of the notebooks,
transcribed one entry per occurrence in the source. -/

/-- The distinct function names defined by repository code (as opposed to
calls into external libraries): `set_color` and `set_network` in the
network-analysis notebooks (`set_color` appears twice, with an identical
body), `stat_map` in the first network-analysis notebook, and `test_model`
in the RSA notebook. -/
def definedFunctions : List String :=
  ["set_color", "set_network", "stat_map", "test_model"]

/-- How a notebook serializes or parses an on-disk artifact: Python's
generic `pickle.dump`/`pickle.load`, numpy's `np.loadtxt`, or the modeling
library's own save/load mechanism (which the spec names but the notebooks
never use). -/
inductive SerialMech where
  | pickleDump
  | pickleLoad
  | npLoadtxt
  | modelingLibSave
  | modelingLibLoad
deriving DecidableEq

/-- Whether a file operation reads or writes the artifact. -/
inductive FileAccess where
  | fileRead
  | fileWrite
deriving DecidableEq

/-- One read or write of an on-disk artifact by a notebook. -/
structure FileOp where
  notebook : String
  lesson : Nat
  file : String
  access : FileAccess
  mech : SerialMech
deriving DecidableEq

/-- Every read and every write of an on-disk artifact performed by
repository code, transcribed from the notebooks (lesson numbers from the
README outline; the two unnamed network-analysis notebooks are the
functional-connectivity lessons). -/
def fileOps : List FileOp :=
  [⟨"5_First_Level_GLM.ipynb", 5, "first_level_models.p",
      .fileWrite, .pickleDump⟩,
   ⟨"6_Second_Level_GLM.ipynb", 6, "first_level_models.p",
      .fileRead, .pickleLoad⟩,
   ⟨"7_ROI_Analysis.ipynb", 7, "first_level_models.p",
      .fileRead, .pickleLoad⟩,
   ⟨"unnamed/part_006 (RSA notebook)", 9, "first_level_models.p",
      .fileRead, .pickleLoad⟩,
   ⟨"unnamed/part_001 (network analysis)", 11, "connectivity.csv",
      .fileRead, .npLoadtxt⟩,
   ⟨"unnamed/part_002 (network analysis)", 11, "connectivity.csv",
      .fileRead, .npLoadtxt⟩]

/-- C1 counterexample: the set of functions defined by repository code does
not have exactly two members — it has four. -/
theorem claim_C1_counterexample : definedFunctions.dedup.length ≠ 2 := by
  decide

/-- C1 (amended): the repository defines exactly four distinct functions —
`set_color`, `set_network`, `stat_map`, `test_model` — each a short,
stateless helper. -/
theorem claim_C1_four_functions :
    definedFunctions.Nodup ∧ definedFunctions.length = 4 := by
  decide

/-- C3 counterexample: it is not the case that every operation on
`first_level_models.p` uses the modeling library's own save/load — the
write in the first-level notebook uses generic `pickle.dump`. -/
theorem claim_C3_counterexample :
    ¬ ∀ op ∈ fileOps, op.file = "first_level_models.p" →
        op.mech = SerialMech.modelingLibSave ∨
        op.mech = SerialMech.modelingLibLoad := by
  decide

/-- C3 (amended): every write of `first_level_models.p` in the repository
uses Python's generic `pickle.dump` and every read uses `pickle.load` — the
generic serializer, not the modeling library's save/load. -/
theorem claim_C3_pickle_only (op : FileOp) (hop : op ∈ fileOps)
    (hf : op.file = "first_level_models.p") :
    (op.access = .fileWrite → op.mech = .pickleDump) ∧
    (op.access = .fileRead → op.mech = .pickleLoad) := by
  have h : ∀ o ∈ fileOps, o.file = "first_level_models.p" →
      (o.access = FileAccess.fileWrite → o.mech = SerialMech.pickleDump) ∧
      (o.access = FileAccess.fileRead → o.mech = SerialMech.pickleLoad) := by
    decide
  exact h op hop hf

/-- Concrete instance of C3: the single write of `first_level_models.p`
(the dump cell of the first-level notebook) uses `pickle.dump`. -/
theorem claim_C3_witness :
    (⟨"5_First_Level_GLM.ipynb", 5, "first_level_models.p",
        FileAccess.fileWrite, SerialMech.pickleDump⟩ : FileOp).mech =
      SerialMech.pickleDump :=
  (claim_C3_pickle_only
      ⟨"5_First_Level_GLM.ipynb", 5, "first_level_models.p",
        FileAccess.fileWrite, SerialMech.pickleDump⟩
      (by decide) rfl).1 rfl

/-- The on-disk hand-off between notebooks: a store from filename to an
opaque pickled payload (the fitted-model collection is opaque to the
repository, so the payload type is a parameter). -/
def Disk (α : Type) : Type := String → Option α

/-- The save cell of the first-level notebook:
`with open('first_level_models.p', 'wb') as f: pickle.dump(glms, f)`. -/
def save_first_level {α : Type} (glms : α) (d : Disk α) : Disk α :=
  fun f => if f = "first_level_models.p" then some glms else d f

/-- The load cell of the second-level, ROI and RSA notebooks:
`with open('first_level_models.p', 'rb') as f: glms = pickle.load(f)`. -/
def load_first_level {α : Type} (d : Disk α) : Option α :=
  d "first_level_models.p"

/-- C4 counterexample: not every on-disk artifact touched by a notebook is
written by some notebook — `connectivity.csv` is read by the two
network-analysis notebooks but written by none. -/
theorem claim_C4_counterexample :
    ¬ ∀ op ∈ fileOps, ∃ wop ∈ fileOps,
        wop.file = op.file ∧ wop.access = FileAccess.fileWrite := by
  decide

/-- C4 (amended): the pickle hand-off round-trips — the collection the
later notebooks load from `first_level_models.p` is exactly the collection
the first-level notebook saved; `first_level_models.p` is written exactly
once, in lesson 5, and every read of it happens in a strictly later lesson;
`connectivity.csv` is only ever read (it is supplied externally). -/
theorem claim_C4_handoff_roundtrip (α : Type) (glms : α) (d : Disk α) :
    load_first_level (save_first_level glms d) = some glms ∧
    (fileOps.filter (fun op =>
        decide (op.file = "first_level_models.p" ∧
          op.access = FileAccess.fileWrite))).map FileOp.lesson = [5] ∧
    (∀ op ∈ fileOps, op.file = "first_level_models.p" →
      op.access = FileAccess.fileRead → 5 < op.lesson) ∧
    (fileOps.filter (fun op =>
        decide (op.file = "connectivity.csv" ∧
          op.access = FileAccess.fileWrite))) = [] := by
  refine ⟨?_, by decide, by decide, by decide⟩
  simp [load_first_level, save_first_level]

/-- Concrete run of C4: saving a payload and loading it back returns it,
and the second-level notebook's read happens after the lesson-5 write. -/
theorem claim_C4_witness :
    load_first_level (save_first_level 42 (fun _ => (none : Option Nat))) =
      some 42 ∧
    5 < (⟨"6_Second_Level_GLM.ipynb", 6, "first_level_models.p",
        FileAccess.fileRead, SerialMech.pickleLoad⟩ : FileOp).lesson := by
  have h := claim_C4_handoff_roundtrip Nat 42 (fun _ => none)
  exact ⟨h.1, h.2.2.1 _ (by decide) rfl rfl⟩

end Psyc917
